import Mathlib

/-!
Verification of the Smart-Recommendation engine of `src/App.jsx`.

The engine consists of `getJaccardSimilarity` (a text normalizer plus a
Jaccard similarity scorer over token sets) and `getSmartRecommendations`
(a rule-based generator proposing a due date, a list move, and related
cards).  This file embeds those functions shallowly:

* text is `List Char`; JavaScript `toLowerCase` is modelled by
  `Char.toLower` (the source data is ASCII, where the two agree);
* JavaScript `Set` becomes `Finset (List Char)`; the floating-point
  similarity score becomes an exact rational (`ℚ`), which agrees with the
  source on every comparison the engine performs;
* `new Date()` and the calendar dates derived from it by `setDate` are
  modelled by an abstract day count `today : ℕ`, with `+ 1` and `+ 7`
  for the one-day and seven-day offsets; the derived display strings of
  a recommendation (`text` field) are presentation-only and omitted;
* JavaScript `String.prototype.split(/\s+/)` is modelled by
  `List.splitOnP Char.isWhitespace`; the two differ only in that the
  latter produces extra empty pieces at runs of whitespace, and every
  empty piece is discarded by the length filter that immediately
  follows, so the resulting token set is identical;
* the ES2019 stable `Array.prototype.sort` with comparator
  `(a, b) => b.similarity - a.similarity` is modelled by a stable
  insertion sort `sortBySimDesc` (proved sorted, a permutation, and
  stable below).
-/

namespace SmartRec

abbrev Text := List Char

/-- The stop-word set of `normalize` (`src/App.jsx` line 55). -/
def stopWords : List Text :=
  ["a", "the", "is", "of", "and", "to", "in", "for", "with", "on", "my"].map String.toList

/-- The characters removed by the `replace` regex of `normalize`
(`src/App.jsx` line 56); the three bracket-like characters are written
via `Char.ofNat` (123 and 125 are the curly braces, 96 is the backquote). -/
def punctChars : List Char :=
  ['.', ',', '/', '#', '!', '$', '%', '^', '&', '*', ';', ':',
   Char.ofNat 123, Char.ofNat 125, '=', '-', '_', Char.ofNat 96, '~', '(', ')']

/-- The `normalize` helper of `getJaccardSimilarity` (`src/App.jsx`
lines 54-57): lowercase, strip the punctuation characters, split on
whitespace, keep tokens of length `> 2` that are not stop words, and
collect the result as a set. -/
def normalize (text : Text) : Finset Text :=
  ((((text.map Char.toLower).filter (fun c => !(punctChars.contains c))).splitOnP
      (fun c => c.isWhitespace)).filter
    (fun w => decide (2 < w.length) && !(stopWords.contains w))).toFinset

/-- `getJaccardSimilarity` (`src/App.jsx` lines 53-64): `0` when either
token set is empty, otherwise `|intersection| / |union|`. -/
def getJaccardSimilarity (text1 text2 : Text) : ℚ :=
  if (normalize text1).card = 0 ∨ (normalize text2).card = 0 then 0
  else (((normalize text1) ∩ (normalize text2)).card : ℚ)
    / (((normalize text1) ∪ (normalize text2)).card : ℚ)

/-- `hasPrefixChars needle hay` holds when `needle` is a prefix of `hay`. -/
def hasPrefixChars : Text → Text → Bool
  | [], _ => true
  | _ :: _, [] => false
  | a :: as, b :: bs => a == b && hasPrefixChars as bs

/-- JavaScript `String.prototype.includes`: `includes hay needle` holds
when `needle` occurs contiguously inside `hay`. -/
def includes : Text → Text → Bool
  | [], needle => needle.isEmpty
  | a :: t, needle => hasPrefixChars needle (a :: t) || includes t needle

/-- A card as consumed by the engine: identifier, title, optional
description, optional due date (the string of the date input; the empty
string, like an absent field, is falsy in the source and counts as
unset), and the denormalized title of the containing list. -/
structure Card where
  id : ℕ
  title : Text
  description : Option Text
  dueDate : Option Text
  listTitle : Text
deriving DecidableEq

/-- JavaScript truthiness of `card.dueDate`: present and non-empty. -/
def hasDueDate (card : Card) : Bool :=
  match card.dueDate with
  | none => false
  | some d => !d.isEmpty

/-- `content` of `getSmartRecommendations` (`src/App.jsx` line 68):
the lowercased concatenation of title, a space, and the description
(defaulted to empty). -/
def cardContent (card : Card) : Text :=
  (card.title ++ [' '] ++ card.description.getD []).map Char.toLower

/-- The raw text of a candidate card handed to `getJaccardSimilarity`
(`src/App.jsx` line 90): title, a space, and the defaulted description. -/
def cardRawText (card : Card) : Text :=
  card.title ++ [' '] ++ card.description.getD []

/-- An entry `{ card, similarity }` of the related-card scan
(`src/App.jsx` line 91). -/
structure ScoredCard where
  card : Card
  similarity : ℚ
deriving DecidableEq

/-- A recommendation (`recs` entry).  The proposed date of a `date`
recommendation is the abstract day count; the display `text` string is
omitted (presentation-only). -/
inductive Recommendation where
  | date (proposedDate : ℕ) (rationale : Text)
  | move (targetList : Text) (rationale : Text)
  | related (cards : List ScoredCard) (rationale : Text)
deriving DecidableEq

/-- Insert an entry in front of the first list element whose similarity
does not exceed it; together with `sortBySimDesc` this models the stable
descending sort of `src/App.jsx` line 92. -/
def insertBySim (x : ScoredCard) : List ScoredCard → List ScoredCard
  | [] => [x]
  | y :: ys => if y.similarity ≤ x.similarity then x :: y :: ys else y :: insertBySim x ys

/-- Stable insertion sort, descending by similarity. -/
def sortBySimDesc (l : List ScoredCard) : List ScoredCard :=
  l.foldr insertBySim []

/-- The date-rule block of `getSmartRecommendations` (`src/App.jsx`
lines 70-83), producing the pushed `date` recommendation if any. -/
def dateRecsOf (today : ℕ) (card : Card) : List Recommendation :=
  if hasDueDate card then []
  else if includes (cardContent card) "today".toList
      || includes (cardContent card) "urgent".toList
      || includes (cardContent card) "asap".toList then
    [Recommendation.date today "Based on urgent keywords.".toList]
  else if includes (cardContent card) "tomorrow".toList
      || includes (cardContent card) "next day".toList then
    [Recommendation.date (today + 1) "Based on short-term keywords.".toList]
  else if includes (cardContent card) "next week".toList
      || includes (cardContent card) "7 days".toList then
    [Recommendation.date (today + 7) "Based on medium-term keywords.".toList]
  else []

/-- The move-rule block of `getSmartRecommendations` (`src/App.jsx`
lines 84-88), producing the pushed `move` recommendation if any. -/
def moveRecsOf (card : Card) : List Recommendation :=
  if includes card.listTitle "To Do".toList
      && (includes (cardContent card) "started".toList
        || includes (cardContent card) "working on".toList) then
    [Recommendation.move "In Progress".toList "Keywords suggest work has begun.".toList]
  else if includes card.listTitle "In Progress".toList
      && (includes (cardContent card) "done".toList
        || includes (cardContent card) "complete".toList) then
    [Recommendation.move "Done".toList "Keywords suggest task is complete.".toList]
  else []

/-- The filter-and-score step of the related-card scan (`src/App.jsx`
lines 89-91): every sibling other than the target, paired with its
similarity to the target's content. -/
def scoreCandidates (card : Card) (allCards : List Card) : List ScoredCard :=
  (allCards.filter (fun c => c.id != card.id)).map
    (fun otherCard => ⟨otherCard, getJaccardSimilarity (cardContent card) (cardRawText otherCard)⟩)

/-- The full related-card computation (`src/App.jsx` lines 89-92):
threshold filter at `0.25`, stable descending sort, truncation to 3. -/
def relatedCardsOf (card : Card) (allCards : List Card) : List ScoredCard :=
  ((sortBySimDesc ((scoreCandidates card allCards).filter
    (fun item => decide ((0.25 : ℚ) < item.similarity)))).take 3)

/-- The conditional push of the `related` recommendation (`src/App.jsx`
lines 93-95). -/
def relRecsOf (card : Card) (allCards : List Card) : List Recommendation :=
  if 0 < (relatedCardsOf card allCards).length then
    [Recommendation.related (relatedCardsOf card allCards) "Content similarity analysis.".toList]
  else []

/-- `getSmartRecommendations` (`src/App.jsx` lines 66-97): the `recs`
array receives the date recommendation, then the move recommendation,
then the related-cards recommendation, each when applicable. -/
def getSmartRecommendations (today : ℕ) (card : Card) (allCards : List Card) :
    List Recommendation :=
  dateRecsOf today card ++ moveRecsOf card ++ relRecsOf card allCards

/-- Recognizer for `type: 'date'` recommendations. -/
def isDateRec : Recommendation → Bool
  | .date _ _ => true
  | _ => false

/-- Recognizer for `type: 'move'` recommendations. -/
def isMoveRec : Recommendation → Bool
  | .move _ _ => true
  | _ => false

/-- Recognizer for `type: 'related'` recommendations. -/
def isRelatedRec : Recommendation → Bool
  | .related _ _ => true
  | _ => false

/-- The tokens of a text read per the specification's wording: the
whitespace-delimited tokens of the raw input, each lowercased and with
the punctuation characters stripped. -/
def tokenizeSpec (text : Text) : List Text :=
  (text.splitOnP (fun c => c.isWhitespace)).map
    (fun w => (w.map Char.toLower).filter (fun c => !(punctChars.contains c)))

/-- The normalizer read off the specification sentence of claim C8: the
set of unique lowercase punctuation-stripped tokens of the input, with
tokens shorter than 3 characters and stop words removed. -/
def normalizeSpec (text : Text) : Finset Text :=
  ((tokenizeSpec text).filter
    (fun w => decide (2 < w.length) && !(stopWords.contains w))).toFinset

/-! ### Concrete cards used to instantiate the theorems below -/

/-- A target card with two qualifying tokens and no keyword matches. -/
def exCardA : Card := ⟨0, "alpha beta".toList, none, none, "Misc".toList⟩

/-- A sibling card with the same content as `exCardA` (similarity 1). -/
def exCardB : Card := ⟨1, "alpha beta".toList, none, none, "Misc".toList⟩

/-- A card whose content matches the urgent keyword rule. -/
def exCardU : Card := ⟨2, "urgent fix".toList, none, none, "Misc".toList⟩

/-- A card with urgent keywords but an already-set due date. -/
def exCardD : Card := ⟨3, "urgent fix".toList, none, some ("2025-01-01".toList), "Misc".toList⟩

/-- A card in "To Do" whose content matches the work-start keywords. -/
def exCardT : Card := ⟨4, "started work".toList, none, none, "To Do".toList⟩

/-- A finished card sitting in the "Done" list. -/
def exCardDn : Card := ⟨5, "all done".toList, none, none, "Done".toList⟩

/-- A card matching no rule at all. -/
def exCardN : Card := ⟨6, "xyz".toList, none, none, "Misc".toList⟩

/-! ### Character-level facts -/

theorem toNat_ofNat_valid {n : ℕ} (h : n < 55296) : (Char.ofNat n).toNat = n := by
  rw [Char.ofNat, dif_pos (Or.inl h)]
  simp [Char.ofNatAux, Char.toNat, UInt32.toNat]

theorem toLower_eq (c : Char) :
    c.toLower = if c.toNat ≥ 65 ∧ c.toNat ≤ 90 then Char.ofNat (c.toNat + 32) else c := rfl

theorem isWhitespace_false_of_ge (c : Char) (h : 33 ≤ c.toNat) :
    c.isWhitespace = false := by
  simp only [Char.isWhitespace, Bool.or_eq_false_iff, decide_eq_false_iff_not]
  refine ⟨⟨⟨?_, ?_⟩, ?_⟩, ?_⟩ <;> (intro he; subst he; revert h; decide)

theorem isWhitespace_toLower (c : Char) : (c.toLower).isWhitespace = c.isWhitespace := by
  rw [toLower_eq]
  by_cases h : c.toNat ≥ 65 ∧ c.toNat ≤ 90
  · rw [if_pos h]
    have h2 : (Char.ofNat (c.toNat + 32)).toNat = c.toNat + 32 :=
      toNat_ofNat_valid (by omega)
    rw [isWhitespace_false_of_ge _ (by omega), isWhitespace_false_of_ge _ (by omega)]
  · rw [if_neg h]

theorem toLower_toLower (c : Char) : c.toLower.toLower = c.toLower := by
  conv_lhs => rw [toLower_eq c]
  by_cases h : c.toNat ≥ 65 ∧ c.toNat ≤ 90
  · rw [if_pos h]
    have h2 : (Char.ofNat (c.toNat + 32)).toNat = c.toNat + 32 :=
      toNat_ofNat_valid (by omega)
    rw [toLower_eq, h2, if_neg (by omega), toLower_eq, if_pos h]
  · rw [if_neg h]

theorem punct_not_whitespace (c : Char) (h : c.isWhitespace = true) :
    (!(punctChars.contains c)) = true := by
  simp only [Char.isWhitespace, Bool.or_eq_true, decide_eq_true_eq] at h
  rcases h with ((h | h) | h) | h <;> (subst h; decide)

/-! ### Splitting commutes with whitespace-preserving maps and filters -/

theorem splitOnP_map_of_pres {α : Type} (p : α → Bool) (f : α → α) (l : List α)
    (hf : ∀ a, p (f a) = p a) :
    (l.map f).splitOnP p = (l.splitOnP p).map (List.map f) := by
  induction l with
  | nil => simp
  | cons a l ih =>
    rw [List.map_cons, List.splitOnP_cons, List.splitOnP_cons, hf]
    by_cases hp : p a
    · simp [hp, ih]
    · rw [if_neg hp, if_neg hp, ih]
      rcases hsp : (l.splitOnP p) with _ | ⟨h1, t1⟩
      · exact absurd hsp (List.splitOnP_ne_nil p l)
      · simp

theorem splitOnP_filter_of_pres {α : Type} (p q : α → Bool) (l : List α)
    (hpq : ∀ a, p a = true → q a = true) :
    (l.filter q).splitOnP p = (l.splitOnP p).map (List.filter q) := by
  induction l with
  | nil => simp
  | cons a l ih =>
    rw [List.filter_cons]
    by_cases hq : q a
    · rw [if_pos hq, List.splitOnP_cons, List.splitOnP_cons]
      by_cases hp : p a
      · rw [if_pos hp, if_pos hp, List.map_cons, ih, List.filter_nil]
      · rw [if_neg hp, if_neg hp, ih]
        rcases hsp : (l.splitOnP p) with _ | ⟨h1, t1⟩
        · exact absurd hsp (List.splitOnP_ne_nil p l)
        · simp [List.filter_cons, hq]
    · have hp : p a = false := by
        cases hpa : p a
        · rfl
        · exact absurd (hpq a hpa) (by simp_all)
      rw [if_neg hq, List.splitOnP_cons, hp]
      simp only [Bool.false_eq_true, if_false]
      rw [ih]
      rcases hsp : (l.splitOnP p) with _ | ⟨h1, t1⟩
      · exact absurd hsp (List.splitOnP_ne_nil p l)
      · simp [List.filter_cons, hq]

theorem map_eq_self_of_mem {α : Type} (f : α → α) (l : List α)
    (h : ∀ a ∈ l, f a = a) : l.map f = l := by
  induction l with
  | nil => rfl
  | cons a l ih =>
    rw [List.map_cons, h a (List.mem_cons_self a l),
      ih (fun b hb => h b (List.mem_cons_of_mem a hb))]

/-! ### The stable descending sort -/

theorem perm_insertBySim (x : ScoredCard) (l : List ScoredCard) :
    List.Perm (insertBySim x l) (x :: l) := by
  induction l with
  | nil => exact List.Perm.refl _
  | cons y ys ih =>
    rw [insertBySim]
    split
    · exact List.Perm.refl _
    · exact (ih.cons y).trans (List.Perm.swap x y ys)

theorem sortBySimDesc_cons (x : ScoredCard) (xs : List ScoredCard) :
    sortBySimDesc (x :: xs) = insertBySim x (sortBySimDesc xs) := rfl

theorem perm_sortBySimDesc (l : List ScoredCard) : List.Perm (sortBySimDesc l) l := by
  induction l with
  | nil => exact List.Perm.refl _
  | cons x xs ih =>
    rw [sortBySimDesc_cons]
    exact (perm_insertBySim x (sortBySimDesc xs)).trans (ih.cons x)

theorem sorted_insertBySim (x : ScoredCard) (l : List ScoredCard)
    (h : l.Sorted (fun a b => b.similarity ≤ a.similarity)) :
    (insertBySim x l).Sorted (fun a b => b.similarity ≤ a.similarity) := by
  induction l with
  | nil => simp [insertBySim]
  | cons y ys ih =>
    rw [insertBySim]
    rw [List.sorted_cons] at h
    split
    · rename_i hle
      refine List.sorted_cons.mpr ⟨?_, List.sorted_cons.mpr h⟩
      intro b hb
      rcases List.mem_cons.mp hb with hb | hb
      · exact hb ▸ hle
      · exact le_trans (h.1 b hb) hle
    · rename_i hgt
      push_neg at hgt
      refine List.sorted_cons.mpr ⟨?_, ih h.2⟩
      intro b hb
      have hmem := (perm_insertBySim x ys).mem_iff.mp hb
      rcases List.mem_cons.mp hmem with hb2 | hb2
      · exact hb2 ▸ le_of_lt hgt
      · exact h.1 b hb2

theorem sorted_sortBySimDesc (l : List ScoredCard) :
    (sortBySimDesc l).Sorted (fun a b => b.similarity ≤ a.similarity) := by
  induction l with
  | nil => simp [sortBySimDesc]
  | cons x xs ih => exact sorted_insertBySim x (sortBySimDesc xs) ih

theorem filter_insertBySim (x : ScoredCard) (l : List ScoredCard) (q : ℚ) :
    (insertBySim x l).filter (fun e => decide (e.similarity = q))
      = (if x.similarity = q then [x] else [])
        ++ l.filter (fun e => decide (e.similarity = q)) := by
  induction l with
  | nil =>
    by_cases hx : x.similarity = q <;> simp [insertBySim, List.filter_cons, hx]
  | cons y ys ih =>
    rw [insertBySim]
    by_cases hle : y.similarity ≤ x.similarity
    · rw [if_pos hle]
      by_cases hx : x.similarity = q <;> simp [List.filter_cons, hx]
    · rw [if_neg hle]
      push_neg at hle
      by_cases hy : y.similarity = q
      · have hx : ¬ x.similarity = q := by
          intro hx
          rw [hx] at hle
          rw [hy] at hle
          exact lt_irrefl _ hle
        simp [List.filter_cons, hx, hy, ih]
      · simp [List.filter_cons, hy, ih]

theorem filter_sortBySimDesc (l : List ScoredCard) (q : ℚ) :
    (sortBySimDesc l).filter (fun e => decide (e.similarity = q))
      = l.filter (fun e => decide (e.similarity = q)) := by
  induction l with
  | nil => rfl
  | cons x xs ih =>
    rw [sortBySimDesc_cons, filter_insertBySim, ih, List.filter_cons]
    by_cases hx : x.similarity = q <;> simp [hx]

/-! ### Shape of the three recommendation blocks -/

theorem mem_dateRecsOf {today : ℕ} {card : Card} {r : Recommendation}
    (hr : r ∈ dateRecsOf today card) : ∃ d rat, r = Recommendation.date d rat := by
  unfold dateRecsOf at hr
  split_ifs at hr
  all_goals first
    | exact absurd hr (List.not_mem_nil _)
    | exact ⟨_, _, List.mem_singleton.mp hr⟩

theorem mem_moveRecsOf {card : Card} {r : Recommendation}
    (hr : r ∈ moveRecsOf card) : ∃ t rat, r = Recommendation.move t rat := by
  unfold moveRecsOf at hr
  split_ifs at hr
  all_goals first
    | exact absurd hr (List.not_mem_nil _)
    | exact ⟨_, _, List.mem_singleton.mp hr⟩

theorem mem_relRecsOf {card : Card} {allCards : List Card} {r : Recommendation}
    (hr : r ∈ relRecsOf card allCards) :
    r = Recommendation.related (relatedCardsOf card allCards)
      ("Content similarity analysis.".toList) := by
  unfold relRecsOf at hr
  split_ifs at hr
  · exact List.mem_singleton.mp hr
  · exact absurd hr (List.not_mem_nil _)

theorem filter_isDateRec_out (today : ℕ) (card : Card) (allCards : List Card) :
    (getSmartRecommendations today card allCards).filter isDateRec = dateRecsOf today card := by
  unfold getSmartRecommendations
  rw [List.filter_append, List.filter_append]
  rw [List.filter_eq_self.mpr (fun r hr => by
    obtain ⟨d, rat, rfl⟩ := mem_dateRecsOf hr; rfl)]
  rw [List.filter_eq_nil_iff.mpr (fun r hr => by
    obtain ⟨t, rat, rfl⟩ := mem_moveRecsOf hr; simp [isDateRec])]
  rw [List.filter_eq_nil_iff.mpr (fun r hr => by
    rw [mem_relRecsOf hr]; simp [isDateRec])]
  simp

theorem filter_isMoveRec_out (today : ℕ) (card : Card) (allCards : List Card) :
    (getSmartRecommendations today card allCards).filter isMoveRec = moveRecsOf card := by
  unfold getSmartRecommendations
  rw [List.filter_append, List.filter_append]
  rw [List.filter_eq_nil_iff.mpr (fun r hr => by
    obtain ⟨d, rat, rfl⟩ := mem_dateRecsOf hr; simp [isMoveRec])]
  rw [List.filter_eq_self.mpr (fun r hr => by
    obtain ⟨t, rat, rfl⟩ := mem_moveRecsOf hr; rfl)]
  rw [List.filter_eq_nil_iff.mpr (fun r hr => by
    rw [mem_relRecsOf hr]; simp [isMoveRec])]
  simp

theorem filter_isRelatedRec_out (today : ℕ) (card : Card) (allCards : List Card) :
    (getSmartRecommendations today card allCards).filter isRelatedRec
      = relRecsOf card allCards := by
  unfold getSmartRecommendations
  rw [List.filter_append, List.filter_append]
  rw [List.filter_eq_nil_iff.mpr (fun r hr => by
    obtain ⟨d, rat, rfl⟩ := mem_dateRecsOf hr; simp [isRelatedRec])]
  rw [List.filter_eq_nil_iff.mpr (fun r hr => by
    obtain ⟨t, rat, rfl⟩ := mem_moveRecsOf hr; simp [isRelatedRec])]
  rw [List.filter_eq_self.mpr (fun r hr => by
    rw [mem_relRecsOf hr]; rfl)]
  simp

/-! ### The claims -/

/-- Claim C5: for all texts A and B, `getJaccardSimilarity A B` equals
`getJaccardSimilarity B A`. -/
theorem claim_C5 (A B : Text) : getJaccardSimilarity A B = getJaccardSimilarity B A := by
  unfold getJaccardSimilarity
  by_cases h : (normalize A).card = 0 ∨ (normalize B).card = 0
  · rw [if_pos h, if_pos h.symm]
  · rw [if_neg h, if_neg (fun h2 => h h2.symm), Finset.inter_comm, Finset.union_comm]

/-- Claim C6: for all texts A and B, `getJaccardSimilarity A B` lies
between 0 and 1 inclusive, and `getJaccardSimilarity A A = 1` whenever A
normalizes to at least one qualifying token. -/
theorem claim_C6 (A B : Text) :
    (0 ≤ getJaccardSimilarity A B ∧ getJaccardSimilarity A B ≤ 1)
    ∧ ((normalize A).Nonempty → getJaccardSimilarity A A = 1) := by
  constructor
  · unfold getJaccardSimilarity
    by_cases h : (normalize A).card = 0 ∨ (normalize B).card = 0
    · rw [if_pos h]
      norm_num
    · rw [if_neg h]
      push_neg at h
      have hU : 0 < ((normalize A) ∪ (normalize B)).card := by
        have h1 := Finset.card_le_card
          (Finset.subset_union_left : normalize A ⊆ normalize A ∪ normalize B)
        omega
      have hUQ : (0 : ℚ) < (((normalize A) ∪ (normalize B)).card : ℚ) := by
        exact_mod_cast hU
      constructor
      · apply div_nonneg _ (le_of_lt hUQ)
        exact_mod_cast Nat.zero_le _
      · rw [div_le_one hUQ]
        have hsub : (normalize A) ∩ (normalize B) ⊆ (normalize A) ∪ (normalize B) :=
          Finset.inter_subset_left.trans Finset.subset_union_left
        exact_mod_cast Finset.card_le_card hsub
  · intro hA
    unfold getJaccardSimilarity
    have hpos := hA.card_pos
    rw [if_neg (by omega)]
    rw [Finset.inter_self, Finset.union_self]
    exact div_self (Nat.cast_ne_zero.mpr (Nat.pos_iff_ne_zero.mp hpos))

/-- Claim C7: an empty normalized token set on either side forces a zero
similarity without dividing by zero: the guard returns 0, and in the
division branch the union is provably non-empty; the empty string and
the all-stop-word text `"the a of"` normalize to the empty set, so their
similarity with any text is 0. -/
theorem claim_C7 (A B : Text) :
    ((normalize A).card = 0 ∨ (normalize B).card = 0 → getJaccardSimilarity A B = 0)
    ∧ ((normalize A).Nonempty → (normalize B).Nonempty →
        ((((normalize A) ∪ (normalize B)).card : ℚ) ≠ 0))
    ∧ normalize ("".toList) = ∅
    ∧ normalize ("the a of".toList) = ∅
    ∧ getJaccardSimilarity ("".toList) B = 0
    ∧ getJaccardSimilarity ("the a of".toList) B = 0 := by
  refine ⟨?_, ?_, by decide, by decide, ?_, ?_⟩
  · intro h
    unfold getJaccardSimilarity
    rw [if_pos h]
  · intro hA _
    have hU : 0 < ((normalize A) ∪ (normalize B)).card :=
      Finset.card_pos.mpr (hA.mono Finset.subset_union_left)
    exact Nat.cast_ne_zero.mpr (Nat.pos_iff_ne_zero.mp hU)
  · unfold getJaccardSimilarity
    rw [if_pos (Or.inl (by decide))]
  · unfold getJaccardSimilarity
    rw [if_pos (Or.inl (by decide))]

/-- Claim C9: the ranked cards of the related-cards computation never
contain a card whose identifier equals the target card's identifier. -/
theorem claim_C9 (card : Card) (allCards : List Card) :
    ∀ e ∈ relatedCardsOf card allCards, e.card.id ≠ card.id := by
  intro e he
  have h1 := List.mem_of_mem_take he
  have h2 := (perm_sortBySimDesc _).mem_iff.mp h1
  have h3 := List.mem_of_mem_filter h2
  unfold scoreCandidates at h3
  rcases List.mem_map.mp h3 with ⟨c, hc, rfl⟩
  have h4 := List.of_mem_filter hc
  simpa using h4

/-- Claim C4: the sequence returned by `getSmartRecommendations` is its
date recommendations, then its move recommendations, then its
related-cards recommendations, and it is empty when all three blocks are
empty. -/
theorem claim_C4 (today : ℕ) (card : Card) (allCards : List Card) :
    (getSmartRecommendations today card allCards
      = (getSmartRecommendations today card allCards).filter isDateRec
        ++ (getSmartRecommendations today card allCards).filter isMoveRec
        ++ (getSmartRecommendations today card allCards).filter isRelatedRec)
    ∧ (dateRecsOf today card = [] → moveRecsOf card = [] → relRecsOf card allCards = [] →
        getSmartRecommendations today card allCards = []) := by
  constructor
  · rw [filter_isDateRec_out, filter_isMoveRec_out, filter_isRelatedRec_out]
    rfl
  · intro h1 h2 h3
    unfold getSmartRecommendations
    rw [h1, h2, h3]
    rfl

theorem sim_gt_of_mem_relatedCardsOf {card : Card} {allCards : List Card} {e : ScoredCard}
    (he : e ∈ relatedCardsOf card allCards) : (0.25 : ℚ) < e.similarity := by
  have h1 := List.mem_of_mem_take he
  have h2 := (perm_sortBySimDesc _).mem_iff.mp h1
  have h3 := List.of_mem_filter h2
  exact of_decide_eq_true h3

/-- Claim C1: the related-card step keeps exactly the candidates whose
similarity is strictly greater than 0.25, sorts them descending by
similarity with equal scores keeping their input order (the sort is a
permutation, is sorted, and preserves the candidate subsequence at every
score), truncates to at most 3, and a `related` recommendation is
emitted if and only if some candidate clears the threshold. -/
theorem claim_C1 (today : ℕ) (card : Card) (allCards : List Card) :
    let kept := (scoreCandidates card allCards).filter
      (fun item => decide ((0.25 : ℚ) < item.similarity))
    relatedCardsOf card allCards = (sortBySimDesc kept).take 3
    ∧ List.Perm (sortBySimDesc kept) kept
    ∧ (sortBySimDesc kept).Sorted (fun a b => b.similarity ≤ a.similarity)
    ∧ (∀ q : ℚ, (sortBySimDesc kept).filter (fun e => decide (e.similarity = q))
        = kept.filter (fun e => decide (e.similarity = q)))
    ∧ (relatedCardsOf card allCards).length ≤ 3
    ∧ ((∃ cs rat, Recommendation.related cs rat ∈ getSmartRecommendations today card allCards)
        ↔ kept ≠ []) := by
  intro kept
  refine ⟨rfl, perm_sortBySimDesc _, sorted_sortBySimDesc _,
    fun q => filter_sortBySimDesc _ q, ?_, ?_, ?_⟩
  · show ((sortBySimDesc kept).take 3).length ≤ 3
    exact List.length_take_le 3 _
  · rintro ⟨cs, rat, hmem⟩
    unfold getSmartRecommendations at hmem
    rcases List.mem_append.mp hmem with h | h2
    on_goal 1 =>
      rcases List.mem_append.mp h with hdm | hdm
      · obtain ⟨d0, r0, heq⟩ := mem_dateRecsOf hdm
        exact absurd heq (by simp)
      · obtain ⟨t0, r0, heq⟩ := mem_moveRecsOf hdm
        exact absurd heq (by simp)
    unfold relRecsOf at h2
    split_ifs at h2 with hc
    · intro hk
      rw [show relatedCardsOf card allCards = (sortBySimDesc kept).take 3 from rfl, hk] at hc
      simp [sortBySimDesc] at hc
    · exact absurd h2 (List.not_mem_nil _)
  · intro hk
    refine ⟨relatedCardsOf card allCards, "Content similarity analysis.".toList, ?_⟩
    have hs : sortBySimDesc kept ≠ [] := by
      intro hs
      have h0 := perm_sortBySimDesc kept
      rw [hs] at h0
      exact hk h0.symm.eq_nil
    have hlen : 0 < (relatedCardsOf card allCards).length := by
      show 0 < ((sortBySimDesc kept).take 3).length
      rw [List.length_take]
      have hp := List.length_pos.mpr hs
      omega
    unfold getSmartRecommendations
    refine List.mem_append.mpr (Or.inr ?_)
    unfold relRecsOf
    rw [if_pos hlen]
    exact List.mem_singleton.mpr rfl

/-- Claim C2: for a card with no due date the date rule is evaluated
first-match-wins — urgent keywords propose today with the urgent
rationale, else short-term keywords propose today plus one day, else
medium-term keywords propose today plus seven days, else nothing — and a
card that already has a due date yields no date recommendation. -/
theorem claim_C2 (today : ℕ) (card : Card) (allCards : List Card) :
    (hasDueDate card = false →
      (((includes (cardContent card) ("today".toList)
          || includes (cardContent card) ("urgent".toList)
          || includes (cardContent card) ("asap".toList)) = true →
        (getSmartRecommendations today card allCards).filter isDateRec
          = [Recommendation.date today ("Based on urgent keywords.".toList)])
      ∧ ((includes (cardContent card) ("today".toList)
          || includes (cardContent card) ("urgent".toList)
          || includes (cardContent card) ("asap".toList)) = false →
        (((includes (cardContent card) ("tomorrow".toList)
            || includes (cardContent card) ("next day".toList)) = true →
          (getSmartRecommendations today card allCards).filter isDateRec
            = [Recommendation.date (today + 1) ("Based on short-term keywords.".toList)])
        ∧ ((includes (cardContent card) ("tomorrow".toList)
            || includes (cardContent card) ("next day".toList)) = false →
          (((includes (cardContent card) ("next week".toList)
              || includes (cardContent card) ("7 days".toList)) = true →
            (getSmartRecommendations today card allCards).filter isDateRec
              = [Recommendation.date (today + 7) ("Based on medium-term keywords.".toList)])
          ∧ ((includes (cardContent card) ("next week".toList)
              || includes (cardContent card) ("7 days".toList)) = false →
            (getSmartRecommendations today card allCards).filter isDateRec = [])))))))
    ∧ (hasDueDate card = true →
        (getSmartRecommendations today card allCards).filter isDateRec = []) := by
  have hbase : (getSmartRecommendations today card allCards).filter isDateRec
      = dateRecsOf today card := filter_isDateRec_out today card allCards
  rw [hbase]
  constructor
  · intro hdue
    unfold dateRecsOf
    rw [hdue]
    simp only [Bool.false_eq_true, if_false]
    refine ⟨fun h1 => ?_, fun h1 => ?_⟩
    · rw [if_pos h1]
    · rw [if_neg (by rw [h1]; exact Bool.false_ne_true)]
      refine ⟨fun h2 => ?_, fun h2 => ?_⟩
      · rw [if_pos h2]
      · rw [if_neg (by rw [h2]; exact Bool.false_ne_true)]
        refine ⟨fun h3 => ?_, fun h3 => ?_⟩
        · rw [if_pos h3]
        · rw [if_neg (by rw [h3]; exact Bool.false_ne_true)]
  · intro hdue
    unfold dateRecsOf
    rw [hdue]
    simp only [if_true]

/-- Claim C3: at most one move recommendation is produced, evaluated
regardless of due-date presence; the "To Do" branch proposes "In
Progress" when work-start keywords occur, else the "In Progress" branch
proposes "Done" when completion keywords occur; a card in a list titled
exactly "Done" yields no move recommendation. -/
theorem claim_C3 (today : ℕ) (card : Card) (allCards : List Card) :
    ((getSmartRecommendations today card allCards).filter isMoveRec).length ≤ 1
    ∧ ((includes card.listTitle ("To Do".toList)
        && (includes (cardContent card) ("started".toList)
          || includes (cardContent card) ("working on".toList))) = true →
      (getSmartRecommendations today card allCards).filter isMoveRec
        = [Recommendation.move ("In Progress".toList)
            ("Keywords suggest work has begun.".toList)])
    ∧ ((includes card.listTitle ("To Do".toList)
        && (includes (cardContent card) ("started".toList)
          || includes (cardContent card) ("working on".toList))) = false →
      ((includes card.listTitle ("In Progress".toList)
          && (includes (cardContent card) ("done".toList)
            || includes (cardContent card) ("complete".toList))) = true →
        (getSmartRecommendations today card allCards).filter isMoveRec
          = [Recommendation.move ("Done".toList)
              ("Keywords suggest task is complete.".toList)])
      ∧ ((includes card.listTitle ("In Progress".toList)
          && (includes (cardContent card) ("done".toList)
            || includes (cardContent card) ("complete".toList))) = false →
        (getSmartRecommendations today card allCards).filter isMoveRec = []))
    ∧ (card.listTitle = "Done".toList →
        (getSmartRecommendations today card allCards).filter isMoveRec = []) := by
  have hbase : (getSmartRecommendations today card allCards).filter isMoveRec
      = moveRecsOf card := filter_isMoveRec_out today card allCards
  rw [hbase]
  refine ⟨?_, fun h1 => ?_, fun h1 => ⟨fun h2 => ?_, fun h2 => ?_⟩, fun hLT => ?_⟩
  · unfold moveRecsOf
    split_ifs <;> simp
  · unfold moveRecsOf
    rw [if_pos h1]
  · unfold moveRecsOf
    rw [if_neg (by rw [h1]; exact Bool.false_ne_true), if_pos h2]
  · unfold moveRecsOf
    rw [if_neg (by rw [h1]; exact Bool.false_ne_true),
      if_neg (by rw [h2]; exact Bool.false_ne_true)]
  · unfold moveRecsOf
    rw [hLT]
    rw [show includes ("Done".toList) ("To Do".toList) = false from by decide]
    rw [show includes ("Done".toList) ("In Progress".toList) = false from by decide]
    simp

/-- Claim C10: the engine returns at most three recommendations, at most
one of each kind, and a `related` recommendation carries between 1 and 3
ranked cards, each with similarity strictly greater than 0.25. -/
theorem claim_C10 (today : ℕ) (card : Card) (allCards : List Card) :
    (getSmartRecommendations today card allCards).length ≤ 3
    ∧ ((getSmartRecommendations today card allCards).filter isDateRec).length ≤ 1
    ∧ ((getSmartRecommendations today card allCards).filter isMoveRec).length ≤ 1
    ∧ ((getSmartRecommendations today card allCards).filter isRelatedRec).length ≤ 1
    ∧ (∀ cs rat, Recommendation.related cs rat ∈ getSmartRecommendations today card allCards →
        1 ≤ cs.length ∧ cs.length ≤ 3 ∧ ∀ e ∈ cs, (0.25 : ℚ) < e.similarity) := by
  have hd : (dateRecsOf today card).length ≤ 1 := by
    unfold dateRecsOf
    split_ifs <;> simp
  have hm : (moveRecsOf card).length ≤ 1 := by
    unfold moveRecsOf
    split_ifs <;> simp
  have hr : (relRecsOf card allCards).length ≤ 1 := by
    unfold relRecsOf
    split_ifs <;> simp
  refine ⟨?_, ?_, ?_, ?_, ?_⟩
  · unfold getSmartRecommendations
    rw [List.length_append, List.length_append]
    omega
  · rw [filter_isDateRec_out]
    exact hd
  · rw [filter_isMoveRec_out]
    exact hm
  · rw [filter_isRelatedRec_out]
    exact hr
  · intro cs rat hmem
    have hrel : Recommendation.related cs rat ∈ relRecsOf card allCards := by
      unfold getSmartRecommendations at hmem
      rcases List.mem_append.mp hmem with h | h2
      on_goal 1 =>
        rcases List.mem_append.mp h with hdm | hdm
        · obtain ⟨d0, r0, heq⟩ := mem_dateRecsOf hdm
          exact absurd heq (by simp)
        · obtain ⟨t0, r0, heq⟩ := mem_moveRecsOf hdm
          exact absurd heq (by simp)
      exact h2
    unfold relRecsOf at hrel
    split_ifs at hrel with hc
    · have heq := List.mem_singleton.mp hrel
      injection heq with h1 h2
      subst h1
      refine ⟨hc, ?_, ?_⟩
      · rw [show relatedCardsOf card allCards
            = (sortBySimDesc ((scoreCandidates card allCards).filter
              (fun item => decide ((0.25 : ℚ) < item.similarity)))).take 3 from rfl]
        exact List.length_take_le 3 _
      · intro e he
        exact sim_gt_of_mem_relatedCardsOf he
    · exact absurd hrel (List.not_mem_nil _)

/-- Claim C8: the normalizer agrees with the specification's reading —
the set of unique lowercase punctuation-stripped whitespace-delimited
tokens of the input with short tokens and stop words removed
(`normalizeSpec`); it is a total function (so it never errors), returns
a set (so tokens are unique), the empty string yields the empty set, and
every token it returns has length at least 3, is not a stop word, is
fixed by lowercasing, and contains no stripped punctuation character. -/
theorem claim_C8 (text : Text) :
    normalize text = normalizeSpec text
    ∧ normalize ("".toList) = ∅
    ∧ (∀ t ∈ normalize text,
        2 < t.length
        ∧ stopWords.contains t = false
        ∧ t.map Char.toLower = t
        ∧ ∀ c ∈ t, punctChars.contains c = false) := by
  have heq : normalize text = normalizeSpec text := by
    unfold normalize normalizeSpec tokenizeSpec
    rw [splitOnP_filter_of_pres _ _ _ punct_not_whitespace,
      splitOnP_map_of_pres _ _ _ isWhitespace_toLower,
      List.map_map]
    rfl
  refine ⟨heq, by decide, ?_⟩
  intro t ht
  rw [heq] at ht
  unfold normalizeSpec at ht
  rw [List.mem_toFinset] at ht
  have hfil := List.of_mem_filter ht
  have hmem := List.mem_of_mem_filter ht
  simp only [Bool.and_eq_true, decide_eq_true_eq, Bool.not_eq_eq_eq_not, Bool.not_true] at hfil
  unfold tokenizeSpec at hmem
  rcases List.mem_map.mp hmem with ⟨w, hw, rfl⟩
  refine ⟨hfil.1, hfil.2, ?_, ?_⟩
  · apply map_eq_self_of_mem
    intro c hc
    have hc2 := List.mem_of_mem_filter hc
    rcases List.mem_map.mp hc2 with ⟨c0, hc0, rfl⟩
    exact toLower_toLower c0
  · intro c hc
    have hc2 := List.of_mem_filter hc
    simpa using hc2

/-! ### Concrete evaluations shared by the witnesses -/

theorem sim_example :
    getJaccardSimilarity (cardContent exCardA) (cardRawText exCardB) = 1 := by
  have hA : (normalize (cardContent exCardA)).card = 2 := by decide
  have hB : (normalize (cardRawText exCardB)).card = 2 := by decide
  have hI : ((normalize (cardContent exCardA)) ∩ (normalize (cardRawText exCardB))).card = 2 := by
    decide
  have hU : ((normalize (cardContent exCardA)) ∪ (normalize (cardRawText exCardB))).card = 2 := by
    decide
  unfold getJaccardSimilarity
  rw [hA, hB, hI, hU]
  norm_num

theorem scoreCandidates_example :
    scoreCandidates exCardA [exCardB]
      = [⟨exCardB, getJaccardSimilarity (cardContent exCardA) (cardRawText exCardB)⟩] := rfl

theorem relatedCardsOf_example : relatedCardsOf exCardA [exCardB] = [⟨exCardB, 1⟩] := by
  unfold relatedCardsOf
  rw [scoreCandidates_example, sim_example]
  have hfil : List.filter (fun item : ScoredCard => decide ((0.25 : ℚ) < item.similarity))
      [(⟨exCardB, 1⟩ : ScoredCard)] = [⟨exCardB, 1⟩] := by
    simp only [List.filter_cons, List.filter_nil, decide_eq_true_eq]
    norm_num
  rw [hfil]
  rfl

theorem getSmartRecommendations_example :
    getSmartRecommendations 0 exCardA [exCardB]
      = [Recommendation.related [⟨exCardB, 1⟩] ("Content similarity analysis.".toList)] := by
  unfold getSmartRecommendations
  rw [show dateRecsOf 0 exCardA = [] from by decide]
  rw [show moveRecsOf exCardA = [] from by decide]
  unfold relRecsOf
  rw [relatedCardsOf_example]
  rfl

/-! ### Witnesses -/

/-- Witness for C2 at concrete cards: the urgent branch fires for
`exCardU`, and `exCardD` with a set due date yields no date
recommendation. -/
theorem claim_C2_witness :
    hasDueDate exCardU = false
    ∧ (includes (cardContent exCardU) ("today".toList)
        || includes (cardContent exCardU) ("urgent".toList)
        || includes (cardContent exCardU) ("asap".toList)) = true
    ∧ (getSmartRecommendations 7 exCardU []).filter isDateRec
        = [Recommendation.date 7 ("Based on urgent keywords.".toList)]
    ∧ hasDueDate exCardD = true
    ∧ (getSmartRecommendations 7 exCardD []).filter isDateRec = [] :=
  ⟨by decide, by decide,
   ((claim_C2 7 exCardU []).1 (by decide)).1 (by decide),
   by decide,
   (claim_C2 7 exCardD []).2 (by decide)⟩

theorem claim_C3_witness :
    (includes exCardT.listTitle ("To Do".toList)
      && (includes (cardContent exCardT) ("started".toList)
        || includes (cardContent exCardT) ("working on".toList))) = true
    ∧ (getSmartRecommendations 0 exCardT []).filter isMoveRec
        = [Recommendation.move ("In Progress".toList)
            ("Keywords suggest work has begun.".toList)]
    ∧ exCardDn.listTitle = "Done".toList
    ∧ (getSmartRecommendations 0 exCardDn []).filter isMoveRec = [] :=
  ⟨by decide,
   (claim_C3 0 exCardT []).2.1 (by decide),
   rfl,
   (claim_C3 0 exCardDn []).2.2.2 rfl⟩

theorem claim_C4_witness :
    dateRecsOf 0 exCardN = [] ∧ moveRecsOf exCardN = [] ∧ relRecsOf exCardN [] = []
    ∧ getSmartRecommendations 0 exCardN [] = [] :=
  ⟨by decide, by decide, rfl, (claim_C4 0 exCardN []).2 (by decide) (by decide) rfl⟩

theorem claim_C6_witness :
    (normalize ("alpha beta".toList)).Nonempty
    ∧ getJaccardSimilarity ("alpha beta".toList) ("alpha beta".toList) = 1 :=
  ⟨by decide, (claim_C6 ("alpha beta".toList) ("alpha beta".toList)).2 (by decide)⟩

theorem claim_C7_witness :
    ((normalize ("".toList)).card = 0 ∨ (normalize ("beta".toList)).card = 0)
    ∧ getJaccardSimilarity ("".toList) ("beta".toList) = 0
    ∧ (normalize ("alpha beta".toList)).Nonempty
    ∧ (normalize ("beta gamma".toList)).Nonempty
    ∧ ((((normalize ("alpha beta".toList)) ∪ (normalize ("beta gamma".toList))).card : ℚ) ≠ 0) :=
  ⟨Or.inl (by decide),
   (claim_C7 ("".toList) ("beta".toList)).1 (Or.inl (by decide)),
   by decide, by decide,
   (claim_C7 ("alpha beta".toList) ("beta gamma".toList)).2.1 (by decide) (by decide)⟩

theorem claim_C8_witness :
    ("hello".toList) ∈ normalize ("Hello world".toList)
    ∧ (2 < ("hello".toList).length
        ∧ stopWords.contains ("hello".toList) = false
        ∧ ("hello".toList).map Char.toLower = ("hello".toList)
        ∧ ∀ c ∈ ("hello".toList), punctChars.contains c = false) :=
  ⟨by decide, (claim_C8 ("Hello world".toList)).2.2 ("hello".toList) (by decide)⟩

theorem claim_C9_witness :
    (⟨exCardB, 1⟩ : ScoredCard) ∈ relatedCardsOf exCardA [exCardB]
    ∧ (⟨exCardB, (1 : ℚ)⟩ : ScoredCard).card.id ≠ exCardA.id :=
  ⟨by rw [relatedCardsOf_example]; exact List.mem_singleton.mpr rfl,
   claim_C9 exCardA [exCardB] ⟨exCardB, 1⟩
     (by rw [relatedCardsOf_example]; exact List.mem_singleton.mpr rfl)⟩

theorem claim_C10_witness :
    Recommendation.related [⟨exCardB, 1⟩] ("Content similarity analysis.".toList)
        ∈ getSmartRecommendations 0 exCardA [exCardB]
    ∧ (1 ≤ ([⟨exCardB, (1 : ℚ)⟩] : List ScoredCard).length
        ∧ ([⟨exCardB, (1 : ℚ)⟩] : List ScoredCard).length ≤ 3
        ∧ ∀ e ∈ ([⟨exCardB, (1 : ℚ)⟩] : List ScoredCard), (0.25 : ℚ) < e.similarity) :=
  ⟨by rw [getSmartRecommendations_example]; exact List.mem_singleton.mpr rfl,
   (claim_C10 0 exCardA [exCardB]).2.2.2.2 [⟨exCardB, 1⟩]
     ("Content similarity analysis.".toList)
     (by rw [getSmartRecommendations_example]; exact List.mem_singleton.mpr rfl)⟩

end SmartRec
